import Mathlib

/-!
Verification of the DRG graph / Merkle-tree core of `rust-fil-proofs`
(`storage-proofs/src/drgraph.rs`), as a shallow embedding in Lean 4.

Modelling conventions:
* Rust `usize` values are modelled as `Nat`; the claims under study assume
  the relevant products (`node * base_degree`) do not overflow, so machine
  wrap-around is not modelled.
* The per-node `ChaChaRng` is modelled abstractly: a function
  `chacha : List Nat → Nat → Nat` mapping an 8-word seed to the stream of raw
  pseudorandom words it emits (the i-th call yields `chacha seed i`).  ChaCha
  is a fixed deterministic stream cipher, so this is faithful; all theorems
  below are proved for EVERY such stream, hence in particular for ChaCha.
* `rand`'s `gen_range(low, high)` draws uniformly from `[low, high)`; it is
  modelled as `low + raw % (high - low)` for the next raw word (the property
  the code relies on is membership in `[low, high)`), and it panics when
  `low >= high`.
* Fallible Rust paths are modelled with `RustResult`: `ok`, `err`, and
  `panicked` (an `unwrap`/`assert!` failure or other panic).
* `(x as f32).log2().floor()` on `node * m ≥ 2` is modelled as the exact
  integer base-2 logarithm `Nat.log2` (exact for all inputs the f32
  computation represents exactly), and `(size as f64).log2().ceil()` as the
  exact ceiling logarithm `Nat.clog 2` (they agree for every size below
  `2^48`, far beyond any realistic sector).
-/

/-- Result of running a piece of Rust code: a returned value, a returned
error, or a panic (`unwrap` on `None`/`Err`, failed `assert!`, arithmetic
fault). -/
inductive RustResult (E T : Type) where
  | ok : T → RustResult E T
  | err : E → RustResult E T
  | panicked : RustResult E T
deriving DecidableEq

/-- Whether the run returned a value (success). -/
def RustResult.isOk {E T : Type} : RustResult E T → Bool
  | .ok _ => true
  | _ => false

/-- Whether the run returned an error value. -/
def RustResult.isErr {E T : Type} : RustResult E T → Bool
  | .err _ => true
  | _ => false

/-- `BucketGraph` (drgraph.rs): node count, base degree and the 7-word
(32-bit) seed.  `expansion_degree` is asserted to be 0 by `new` and not
stored.  The phantom hasher parameter plays no role in the graph logic. -/
structure BucketGraph where
  nodes : Nat
  base_degree : Nat
  seed : List Nat
deriving DecidableEq

/-- `rand`'s `gen_range(low, high)`: a value in `[low, high)` produced from
the next raw pseudorandom word; the draw panics when `low >= high` (that
precondition is checked separately in `candidateChecked`). -/
def genRange (raw low high : Nat) : Nat := low + raw % (high - low)

/-- Floor base-2 logarithm, by structural recursion on a fuel argument so
that the kernel can evaluate it; `log2floor` below is proven equal to the
standard `Nat.log2`. -/
def log2Aux : Nat → Nat → Nat
  | 0, _ => 0
  | fuel + 1, n => if 2 ≤ n then log2Aux fuel (n / 2) + 1 else 0

/-- Floor base-2 logarithm (`log2floor n = Nat.log2 n`, see
`log2floor_eq_log2`). -/
def log2floor (n : Nat) : Nat := log2Aux n n

/-- `logi = ((node * m) as f32).log2().floor() as usize` (see modelling
conventions: exact integer log2). -/
def logiOf (m node : Nat) : Nat := log2floor (node * m)

/-- `j = rng.gen::<usize>() % logi`; the `gen` call for slot `k` is the
`2*k`-th raw word of the per-node stream. -/
def jOf (raw : Nat → Nat) (m node k : Nat) : Nat := raw (2 * k) % logiOf m node

/-- `jj = cmp::min(node * m + k, 1 << (j + 1))`. -/
def jjOf (raw : Nat → Nat) (m node k : Nat) : Nat :=
  min (node * m + k) (2 ^ (jOf raw m node k + 1))

/-- `back_dist = rng.gen_range(cmp::max(jj >> 1, 2), jj + 1)`; the
`gen_range` call for slot `k` consumes the `2*k+1`-st raw word. -/
def backDistOf (raw : Nat → Nat) (m node k : Nat) : Nat :=
  genRange (raw (2 * k + 1)) (max (jjOf raw m node k / 2) 2) (jjOf raw m node k + 1)

/-- `out = (node * m + k - back_dist) / m`. -/
def outOf (raw : Nat → Nat) (m node k : Nat) : Nat :=
  (node * m + k - backDistOf raw m node k) / m

/-- The k-th collected parent: `node - 1` when `out == node` (self-reference
removal), otherwise `out` (after `assert!(out <= node)`). -/
def candidateOf (raw : Nat → Nat) (m node k : Nat) : Nat :=
  if outOf raw m node k = node then node - 1 else outOf raw m node k

/-- The raw word stream of the ChaChaRng seeded for `node`:
`seed = self.seed | (node as u32)` (8 words), fed to the stream model. -/
def BucketGraph.nodeRaw (g : BucketGraph) (chacha : List Nat → Nat → Nat)
    (node : Nat) : Nat → Nat :=
  chacha (g.seed ++ [node % 2 ^ 32])

/-- `BucketGraph::parents` (drgraph.rs, lines 110-150): nodes 0 and 1 return
`base_degree` copies of 0; any other node collects `base_degree` candidates
from its per-node pseudorandom stream and sorts them ascending
(`parents.sort_unstable()`; the ascending sort of a list of naturals is a
unique list, here computed by insertion sort). -/
def BucketGraph.parents (g : BucketGraph) (chacha : List Nat → Nat → Nat)
    (node : Nat) : List Nat :=
  match node with
  | 0 => List.replicate g.base_degree 0
  | 1 => List.replicate g.base_degree 0
  | _ =>
    ((List.range g.base_degree).map
        (candidateOf (g.nodeRaw chacha node) g.base_degree node)).insertionSort
      (· ≤ ·)

/-- The body of the sampling loop for slot `k`, with every Rust panic source
made explicit: `% logi` with `logi = 0` (division by zero), `gen_range` with
an empty range, `usize` subtraction underflow, division by `m = 0`, and the
`assert!(out <= node)`.  `none` models a panic. -/
def candidateChecked (raw : Nat → Nat) (m node k : Nat) : Option Nat :=
  if m = 0 then none
  else if logiOf m node = 0 then none
  else if jjOf raw m node k + 1 ≤ max (jjOf raw m node k / 2) 2 then none
  else if node * m + k < backDistOf raw m node k then none
  else if outOf raw m node k = node then some (node - 1)
  else if node < outOf raw m node k then none
  else some (outOf raw m node k)

/-- Runs `f` on each element in order, stopping at the first panic (`none`),
as the `for k in 0..m` loop does. -/
def collectChecked (f : Nat → Option Nat) : List Nat → Option (List Nat)
  | [] => some []
  | k :: ks =>
    match f k, collectChecked f ks with
    | some v, some vs => some (v :: vs)
    | _, _ => none

/-- `BucketGraph::parents` with panics modelled: `none` iff some iteration of
the sampling loop panics; otherwise the sorted list of collected parents. -/
def BucketGraph.parentsChecked (g : BucketGraph) (chacha : List Nat → Nat → Nat)
    (node : Nat) : Option (List Nat) :=
  match node with
  | 0 => some (List.replicate g.base_degree 0)
  | 1 => some (List.replicate g.base_degree 0)
  | _ =>
    (collectChecked (candidateChecked (g.nodeRaw chacha node) g.base_degree node)
        (List.range g.base_degree)).map (·.insertionSort (· ≤ ·))

/-- The two error variants of `Error` that `Graph::merkle_tree` can return
(error.rs is outside src/; the variants and their payloads are as constructed
at drgraph.rs lines 33-37 and 43). -/
inductive MTError where
  | invalidMerkleTreeArgs : Nat → Nat → Nat → MTError
  | invalidNodeSize : Nat → MTError
deriving DecidableEq

/-- `PARALLELL_MERKLE` (drgraph.rs line 17): the parallel tree path is
disabled; `merkle_tree` below models the sequential branch that is taken. -/
def PARALLELL_MERKLE : Bool := false

/-- Modelled from the spec: `util::data_at_node` (the util module is outside
src/) slices `node_size` bytes from `data` at node `i`'s offset
`i * node_size`. -/
def dataAtNode (data : List Nat) (i node_size : Nat) : List Nat :=
  (data.drop (i * node_size)).take node_size

/-- The sequential leaf loop of `merkle_tree`: for each node index in order,
decode its slice as a Domain value (`H::Domain::try_from_bytes`); `none`
models the panic of the `unwrap` at drgraph.rs line 56 on the first
undecodable slice. -/
def decodeLeaves (td : List Nat → Option Nat) (data : List Nat) (node_size : Nat) :
    List Nat → Option (List Nat)
  | [] => some []
  | i :: is =>
    match td (dataAtNode data i node_size), decodeLeaves td data node_size is with
    | some v, some vs => some (v :: vs)
    | _, _ => none

/-- `Graph::merkle_tree` (drgraph.rs lines 27-60), sequential branch
(`PARALLELL_MERKLE = false`), parameterized by the Domain decoder
`td` (`H::Domain::try_from_bytes`, outside src/; per the spec it may reject a
slice).  The produced `MerkleTree` is modelled by its ordered leaf sequence —
the bottom-up combine structure is a function of it and is outside src/. -/
def BucketGraph.merkle_tree (g : BucketGraph) (td : List Nat → Option Nat)
    (data : List Nat) (node_size : Nat) : RustResult MTError (List Nat) :=
  if data.length ≠ node_size * g.nodes then
    RustResult.err (MTError.invalidMerkleTreeArgs data.length node_size g.nodes)
  else if node_size ≠ 32 then
    RustResult.err (MTError.invalidNodeSize node_size)
  else
    match decodeLeaves td data node_size (List.range g.nodes) with
    | some leaves => RustResult.ok leaves
    | none => RustResult.panicked

/-- Ceiling base-2 logarithm, by structural recursion on a fuel argument so
that the kernel can evaluate it; proven equal to `Nat.clog 2` below. -/
def clog2Aux : Nat → Nat → Nat
  | 0, _ => 0
  | fuel + 1, n => if 2 ≤ n then clog2Aux fuel ((n + 1) / 2) + 1 else 0

/-- `graph_height(size) = (size as f64).log2().ceil() as usize`, modelled as
the exact ceiling base-2 logarithm (see modelling conventions;
`graph_height_eq_clog` relates it to `Nat.clog 2`). -/
def graph_height (size : Nat) : Nat := clog2Aux size size

/-- `Graph::merkle_tree_depth`. -/
def BucketGraph.merkle_tree_depth (g : BucketGraph) : Nat := graph_height g.nodes

/-- The decimal digit character of `d` (`'0'` + d). -/
def decChar (d : Nat) : Char := Char.ofNat (48 + d)

/-- Decimal digits by structural recursion on a fuel argument (kernel
evaluable); `decDigits n = decDigitsAux n n` since each step divides by 10. -/
def decDigitsAux : Nat → Nat → List Char
  | 0, n => [decChar n]
  | fuel + 1, n =>
    if n < 10 then [decChar n] else decDigitsAux fuel (n / 10) ++ [decChar (n % 10)]

/-- The decimal digits of `n`, most significant first — Rust's
`format!("{}", n)` for an unsigned integer. -/
def decDigits (n : Nat) : List Char := decDigitsAux n n

/-- Decimal rendering of a `Nat` as a string. -/
def natDec (n : Nat) : String := ⟨decDigits n⟩

/-- `ParameterSetIdentifier for BucketGraph` (drgraph.rs lines 98-106): the
seed is deliberately not included. -/
def BucketGraph.parameter_set_identifier (g : BucketGraph) : String :=
  "drgraph::BucketGraph\x7bsize: " ++ natDec g.nodes ++ "; degree: " ++
    natDec g.base_degree ++ "\x7d"

/-- `new_seed()` (drgraph.rs lines 177-179): `OsRng::new().unwrap().gen()`.
The OS entropy source is modelled as `Option (Nat → Nat)`: `some words` when
available (an inexhaustible word supply), `none` when unavailable — in which
case the `unwrap` panics.  `gen()` for `[u32; 7]` takes seven 32-bit words. -/
def new_seed (os : Option (Nat → Nat)) : RustResult Unit (List Nat) :=
  match os with
  | some words => RustResult.ok ((List.range 7).map fun i => words i % 2 ^ 32)
  | none => RustResult.panicked

/-- A concrete word stream used to instantiate the stream-parametric theorems
at concrete inputs (every theorem below holds for an arbitrary stream, in
particular for the real ChaCha one; this stand-in only feeds witnesses). -/
def stdChacha (seed : List Nat) (i : Nat) : Nat := seed.foldl (· + ·) 0 + i

/-- The 5-node, degree-3 graph of the spec's concrete scenario, with seed
`[1,2,3,4,5,6,7]`. -/
def sampleGraph : BucketGraph := ⟨5, 3, [1, 2, 3, 4, 5, 6, 7]⟩

/-- Modelled from the spec: a representative Domain decoder
(`try_from_bytes`, outside src/).  Per §7 decoding is fallible — a slice may
fail to be a valid domain encoding; this decoder rejects any slice containing
the byte 255 (for the reference hash families the all-0xff slice exceeds the
field modulus and is rejected). -/
def sampleDecode (bs : List Nat) : Option Nat :=
  if 255 ∈ bs then none else some 0

/-- A one-node graph used for the decode-failure scenarios. -/
def cexGraph : BucketGraph := ⟨1, 1, [0, 0, 0, 0, 0, 0, 0]⟩

/-- A data buffer of the correct length (32 bytes for one node) whose single
node slice is not a valid domain encoding under `sampleDecode`. -/
def cexData : List Nat := List.replicate 32 255

/-- Reads a decimal digit string back as a number (used to prove that
`decDigits` is injective). -/
def decVal (cs : List Char) : Nat := cs.foldl (fun a c => 10 * a + (c.toNat - 48)) 0

theorem log2Aux_eq_log2 : ∀ fuel n, n ≤ fuel → log2Aux fuel n = Nat.log2 n := by
  intro fuel
  induction fuel with
  | zero =>
    intro n hn
    interval_cases n
    simp [log2Aux, Nat.log2]
  | succ fuel ih =>
    intro n hn
    by_cases h2 : 2 ≤ n
    · have hdiv : n / 2 ≤ fuel := by omega
      rw [show log2Aux (fuel + 1) n = log2Aux fuel (n / 2) + 1 by simp [log2Aux, h2],
        ih _ hdiv]
      conv_rhs => rw [Nat.log2]
      simp [h2]
    · simp [log2Aux, h2]
      rw [Nat.log2]
      simp [h2]

theorem log2floor_eq_log2 (n : Nat) : log2floor n = Nat.log2 n :=
  log2Aux_eq_log2 n n le_rfl

theorem log2floor_pos {n : Nat} (h : 2 ≤ n) : 1 ≤ log2floor n := by
  rw [log2floor_eq_log2, Nat.log2]
  simp [h]

theorem clog2Aux_eq_clog : ∀ fuel n, n ≤ fuel → clog2Aux fuel n = Nat.clog 2 n := by
  intro fuel
  induction fuel with
  | zero =>
    intro n hn
    interval_cases n
    simp [clog2Aux]
  | succ fuel ih =>
    intro n hn
    by_cases h2 : 2 ≤ n
    · have hdiv : (n + 1) / 2 ≤ fuel := by omega
      rw [show clog2Aux (fuel + 1) n = clog2Aux fuel ((n + 1) / 2) + 1 by simp [clog2Aux, h2],
        ih _ hdiv, Nat.clog_of_two_le (by norm_num) h2]
      norm_num
    · interval_cases n <;> simp [clog2Aux]

theorem graph_height_eq_clog (n : Nat) : graph_height n = Nat.clog 2 n :=
  clog2Aux_eq_clog n n le_rfl

theorem genRange_le_lb (raw lo hi : Nat) : lo ≤ genRange raw lo hi :=
  Nat.le_add_right lo _

theorem genRange_lt_ub (raw : Nat) {lo hi : Nat} (h : lo < hi) :
    genRange raw lo hi < hi := by
  have : raw % (hi - lo) < hi - lo := Nat.mod_lt _ (by omega)
  unfold genRange
  omega

theorem two_le_jjOf (raw : Nat → Nat) {m node : Nat} (k : Nat) (hm : 1 ≤ m)
    (hnode : 2 ≤ node) : 2 ≤ jjOf raw m node k := by
  unfold jjOf
  refine le_min ?_ ?_
  · have : 2 * 1 ≤ node * m := Nat.mul_le_mul hnode hm
    omega
  · calc (2 : Nat) = 2 ^ 1 := by norm_num
      _ ≤ 2 ^ (jOf raw m node k + 1) := Nat.pow_le_pow_right (by norm_num) (by omega)

theorem two_le_backDistOf (raw : Nat → Nat) (m node k : Nat) :
    2 ≤ backDistOf raw m node k :=
  le_trans (le_max_right _ 2) (genRange_le_lb _ _ _)

theorem backDistOf_le_jjOf (raw : Nat → Nat) {m node : Nat} (k : Nat) (hm : 1 ≤ m)
    (hnode : 2 ≤ node) : backDistOf raw m node k ≤ jjOf raw m node k := by
  have h2 := two_le_jjOf raw k hm hnode
  have hlt : max (jjOf raw m node k / 2) 2 < jjOf raw m node k + 1 := by
    have : jjOf raw m node k / 2 ≤ jjOf raw m node k := Nat.div_le_self _ _
    omega
  have := genRange_lt_ub (raw (2 * k + 1)) hlt
  unfold backDistOf
  omega

theorem jjOf_le (raw : Nat → Nat) (m node k : Nat) :
    jjOf raw m node k ≤ node * m + k := min_le_left _ _

theorem backDistOf_le (raw : Nat → Nat) {m node : Nat} (k : Nat) (hm : 1 ≤ m)
    (hnode : 2 ≤ node) : backDistOf raw m node k ≤ node * m + k :=
  le_trans (backDistOf_le_jjOf raw k hm hnode) (jjOf_le raw m node k)

theorem outOf_le_node (raw : Nat → Nat) (node : Nat) {m k : Nat} (hm : 1 ≤ m) (hk : k < m) :
    outOf raw m node k ≤ node := by
  have hlt : node * m + k - backDistOf raw m node k < (node + 1) * m := by
    have : node * m + k - backDistOf raw m node k ≤ node * m + k := Nat.sub_le _ _
    have : (node + 1) * m = node * m + m := by ring
    omega
  have := (Nat.div_lt_iff_lt_mul (by omega : 0 < m)).mpr
    (by calc node * m + k - backDistOf raw m node k < (node + 1) * m := hlt)
  unfold outOf
  omega

theorem candidateOf_lt_node (raw : Nat → Nat) {m node k : Nat} (hm : 1 ≤ m)
    (hk : k < m) (hnode : 2 ≤ node) : candidateOf raw m node k < node := by
  unfold candidateOf
  split
  · omega
  · have := outOf_le_node raw node hm hk
    omega

theorem parents_eq_of_two_le (g : BucketGraph) (chacha : List Nat → Nat → Nat)
    {node : Nat} (h : 2 ≤ node) :
    g.parents chacha node =
      ((List.range g.base_degree).map
          (candidateOf (g.nodeRaw chacha node) g.base_degree node)).insertionSort (· ≤ ·) := by
  obtain ⟨n, rfl⟩ : ∃ n, node = n + 2 := ⟨node - 2, by omega⟩
  rfl

theorem parentsChecked_eq_of_two_le (g : BucketGraph) (chacha : List Nat → Nat → Nat)
    {node : Nat} (h : 2 ≤ node) :
    g.parentsChecked chacha node =
      (collectChecked (candidateChecked (g.nodeRaw chacha node) g.base_degree node)
          (List.range g.base_degree)).map (·.insertionSort (· ≤ ·)) := by
  obtain ⟨n, rfl⟩ : ∃ n, node = n + 2 := ⟨node - 2, by omega⟩
  rfl

theorem collectChecked_eq_some {f : Nat → Option Nat} {fn : Nat → Nat} :
    ∀ {l : List Nat}, (∀ k ∈ l, f k = some (fn k)) →
      collectChecked f l = some (l.map fn) := by
  intro l
  induction l with
  | nil => intro _; rfl
  | cons k ks ih =>
    intro h
    have hk := h k (by simp)
    have hks := ih fun x hx => h x (by simp [hx])
    simp [collectChecked, hk, hks]

/-- C1: for every BucketGraph with `base_degree ≥ 1` and every node index
with `2 ≤ node < nodes`, every element of `parents(node)` is strictly less
than `node` — the self-loop fallback to `node - 1` eliminates every
self-reference and no parent ever equals or exceeds its node.  Proved for
every pseudorandom stream, hence for the concrete ChaCha one. -/
theorem parents_forward (chacha : List Nat → Nat → Nat) (g : BucketGraph) (node : Nat)
    (hm : 1 ≤ g.base_degree) (h2 : 2 ≤ node) (hn : node < g.nodes) :
    ∀ p ∈ g.parents chacha node, p < node := by
  intro p hp
  rw [parents_eq_of_two_le g chacha h2, List.mem_insertionSort] at hp
  obtain ⟨k, hk, rfl⟩ := List.mem_map.mp hp
  exact candidateOf_lt_node _ hm (List.mem_range.mp hk) h2

/-- C1 witness: the forward invariant instantiated on the spec's 5-node,
degree-3 graph at node 2 with a concrete stream. -/
theorem parents_forward_witness :
    (sampleGraph.parents stdChacha 2).all (fun p => p < 2) = true := by
  have h := parents_forward stdChacha sampleGraph 2 (by decide) (by decide) (by decide)
  rw [List.all_eq_true]
  intro p hp
  simpa using h p hp

/-- C2: `parents` is a pure, deterministic function of
(nodes, base_degree, seed, node): two calls for the same node return
identical sequences, and two graphs with identical fields return identical
`parents(i)` for every i (the per-node generator is re-derived from the seed
on every call; the embedding exposes no other state). -/
theorem parents_deterministic (chacha : List Nat → Nat → Nat) (g1 g2 : BucketGraph)
    (i : Nat) (hn : g1.nodes = g2.nodes) (hd : g1.base_degree = g2.base_degree)
    (hs : g1.seed = g2.seed) :
    g1.parents chacha i = g1.parents chacha i ∧ g1.parents chacha i = g2.parents chacha i := by
  obtain ⟨n1, d1, s1⟩ := g1
  obtain ⟨n2, d2, s2⟩ := g2
  simp only at hn hd hs
  subst hn; subst hd; subst hs
  exact ⟨rfl, rfl⟩

/-- C2 witness: two structurally equal graphs agree on `parents(4)`. -/
theorem parents_deterministic_witness :
    sampleGraph.parents stdChacha 4 = sampleGraph.parents stdChacha 4 ∧
      sampleGraph.parents stdChacha 4 = (BucketGraph.mk 5 3 [1, 2, 3, 4, 5, 6, 7]).parents stdChacha 4 :=
  parents_deterministic stdChacha sampleGraph (BucketGraph.mk 5 3 [1, 2, 3, 4, 5, 6, 7]) 4 rfl rfl rfl

/-- C4: for every node index in `[0, nodes)` the returned sequence has length
exactly `base_degree`, and the special-cased nodes 0 and 1 return
`base_degree` copies of index 0. -/
theorem parents_degree (chacha : List Nat → Nat → Nat) (g : BucketGraph) (node : Nat)
    (hn : node < g.nodes) :
    (g.parents chacha node).length = g.base_degree ∧
    g.parents chacha 0 = List.replicate g.base_degree 0 ∧
    g.parents chacha 1 = List.replicate g.base_degree 0 := by
  refine ⟨?_, rfl, rfl⟩
  match node with
  | 0 => simp [BucketGraph.parents]
  | 1 => simp [BucketGraph.parents]
  | n + 2 =>
    rw [parents_eq_of_two_le g chacha (by omega), List.length_insertionSort,
      List.length_map, List.length_range]

/-- C4 witness: length and special cases on the spec's concrete graph. -/
theorem parents_degree_witness :
    (sampleGraph.parents stdChacha 4).length = sampleGraph.base_degree ∧
    sampleGraph.parents stdChacha 0 = List.replicate sampleGraph.base_degree 0 ∧
    sampleGraph.parents stdChacha 1 = List.replicate sampleGraph.base_degree 0 :=
  parents_degree stdChacha sampleGraph 4 (by decide)

/-- C3: for every node ≥ 2 and every slot `k < base_degree`:
`jj = min(node*base_degree + k, 2^(j+1))`; `back_dist` lies in the inclusive
integer range `[max(jj/2, 2), jj]` (integer division for `jj/2`); the
candidate is `out = (node*base_degree + k - back_dist) / base_degree`
(integer division); the k-th collected parent is `node-1` when `out = node`
and `out` otherwise; and the returned list is the ascending sort of the
`base_degree` collected candidates (sorted, and a permutation of them). -/
theorem parents_algorithm (chacha : List Nat → Nat → Nat) (g : BucketGraph) (node : Nat)
    (h2 : 2 ≤ node) :
    (∀ k, k < g.base_degree →
      jjOf (g.nodeRaw chacha node) g.base_degree node k =
        min (node * g.base_degree + k)
          (2 ^ (jOf (g.nodeRaw chacha node) g.base_degree node k + 1)) ∧
      max (jjOf (g.nodeRaw chacha node) g.base_degree node k / 2) 2 ≤
        backDistOf (g.nodeRaw chacha node) g.base_degree node k ∧
      backDistOf (g.nodeRaw chacha node) g.base_degree node k ≤
        jjOf (g.nodeRaw chacha node) g.base_degree node k ∧
      outOf (g.nodeRaw chacha node) g.base_degree node k =
        (node * g.base_degree + k -
            backDistOf (g.nodeRaw chacha node) g.base_degree node k) / g.base_degree ∧
      candidateOf (g.nodeRaw chacha node) g.base_degree node k =
        (if outOf (g.nodeRaw chacha node) g.base_degree node k = node then node - 1
          else outOf (g.nodeRaw chacha node) g.base_degree node k)) ∧
    g.parents chacha node =
      ((List.range g.base_degree).map
          (candidateOf (g.nodeRaw chacha node) g.base_degree node)).insertionSort (· ≤ ·) ∧
    List.Sorted (· ≤ ·) (g.parents chacha node) ∧
    (g.parents chacha node).Perm
      ((List.range g.base_degree).map (candidateOf (g.nodeRaw chacha node) g.base_degree node)) := by
  refine ⟨?_, parents_eq_of_two_le g chacha h2, ?_, ?_⟩
  · intro k hk
    have hm : 1 ≤ g.base_degree := by omega
    exact ⟨rfl, genRange_le_lb _ _ _,
      backDistOf_le_jjOf (g.nodeRaw chacha node) k hm h2, rfl, rfl⟩
  · rw [parents_eq_of_two_le g chacha h2]
    exact List.sorted_insertionSort (· ≤ ·) _
  · rw [parents_eq_of_two_le g chacha h2]
    exact List.perm_insertionSort (· ≤ ·) _

/-- C3 witness: the algorithm characterization instantiated at node 2, slot 0
of the spec's concrete graph. -/
theorem parents_algorithm_witness :
    backDistOf (sampleGraph.nodeRaw stdChacha 2) sampleGraph.base_degree 2 0 ≤
      jjOf (sampleGraph.nodeRaw stdChacha 2) sampleGraph.base_degree 2 0 ∧
    sampleGraph.parents stdChacha 2 =
      ((List.range sampleGraph.base_degree).map
          (candidateOf (sampleGraph.nodeRaw stdChacha 2) sampleGraph.base_degree 2)).insertionSort
        (· ≤ ·) ∧
    List.Sorted (· ≤ ·) (sampleGraph.parents stdChacha 2) := by
  have h := parents_algorithm stdChacha sampleGraph 2 (by decide)
  exact ⟨((h.1 0 (by decide)).2.2.1), h.2.1, h.2.2.1⟩

/-- C10: for `base_degree ≥ 1` and `2 ≤ node < nodes`, `parents(node)` never
panics: `logi ≥ 1` so `% logi` is never a division by zero, `jj ≥ 2` so the
inclusive range `[max(jj/2, 2), jj]` is non-empty, `back_dist ≤
node*base_degree + k` so the subtraction never underflows, and
`assert!(out <= node)` always holds — so the checked run returns exactly the
unchecked parent list. -/
theorem parents_no_panic (chacha : List Nat → Nat → Nat) (g : BucketGraph) (node : Nat)
    (hm : 1 ≤ g.base_degree) (h2 : 2 ≤ node) (hn : node < g.nodes) :
    g.parentsChecked chacha node = some (g.parents chacha node) ∧
    1 ≤ logiOf g.base_degree node ∧
    ∀ k, k < g.base_degree →
      2 ≤ jjOf (g.nodeRaw chacha node) g.base_degree node k ∧
      2 ≤ backDistOf (g.nodeRaw chacha node) g.base_degree node k ∧
      backDistOf (g.nodeRaw chacha node) g.base_degree node k ≤ node * g.base_degree + k ∧
      outOf (g.nodeRaw chacha node) g.base_degree node k ≤ node := by
  have hlogi : 1 ≤ logiOf g.base_degree node := by
    unfold logiOf
    exact log2floor_pos (by have := Nat.mul_le_mul h2 hm; omega)
  refine ⟨?_, hlogi, ?_⟩
  · rw [parentsChecked_eq_of_two_le g chacha h2, parents_eq_of_two_le g chacha h2,
      collectChecked_eq_some ?_]
    · rfl
    · intro k hk
      rw [List.mem_range] at hk
      have hjj := two_le_jjOf (g.nodeRaw chacha node) k hm h2
      have hbdle := backDistOf_le (g.nodeRaw chacha node) k hm h2
      have hout := outOf_le_node (g.nodeRaw chacha node) node hm hk
      have hdiv : jjOf (g.nodeRaw chacha node) g.base_degree node k / 2 ≤
          jjOf (g.nodeRaw chacha node) g.base_degree node k := Nat.div_le_self _ _
      unfold candidateChecked candidateOf
      rw [if_neg (by omega), if_neg (by omega), if_neg (by omega), if_neg (by omega)]
      split
      · rfl
      · rw [if_neg (by omega)]
  · intro k hk
    exact ⟨two_le_jjOf (g.nodeRaw chacha node) k hm h2,
      two_le_backDistOf (g.nodeRaw chacha node) g.base_degree node k,
      backDistOf_le (g.nodeRaw chacha node) k hm h2,
      outOf_le_node (g.nodeRaw chacha node) node hm hk⟩

/-- C10 witness: the checked sampler agrees with the unchecked one on the
spec's concrete graph at node 4. -/
theorem parents_no_panic_witness :
    sampleGraph.parentsChecked stdChacha 4 = some (sampleGraph.parents stdChacha 4) ∧
      1 ≤ logiOf sampleGraph.base_degree 4 := by
  have h := parents_no_panic stdChacha sampleGraph 4 (by decide) (by decide) (by decide)
  exact ⟨h.1, h.2.1⟩

theorem decodeLeaves_isSome (td : List Nat → Option Nat) (data : List Nat) (ns : Nat) :
    ∀ l : List Nat, (decodeLeaves td data ns l).isSome =
      l.all (fun i => (td (dataAtNode data i ns)).isSome) := by
  intro l
  induction l with
  | nil => rfl
  | cons i is ih =>
    simp only [decodeLeaves, List.all_cons]
    cases htd : td (dataAtNode data i ns) with
    | none => simp [htd]
    | some v =>
      cases hrec : decodeLeaves td data ns is with
      | none => rw [hrec] at ih; simpa using ih.symm
      | some vs => rw [hrec] at ih; simp [← ih]

/-- C5 (amended): `merkle_tree(data, 32)` succeeds iff
`data.length = 32 * size()` AND every 32-byte node slice decodes as a Domain
value; when the length mismatches it fails with `InvalidMerkleTreeArgs`
carrying exactly (data length, node byte size, graph size) and no tree is
returned; when the length matches but some slice is undecodable the call
panics (the `unwrap`) instead of succeeding. -/
theorem merkle_tree_size_law (g : BucketGraph) (td : List Nat → Option Nat)
    (data : List Nat) :
    (data.length ≠ 32 * g.nodes →
      g.merkle_tree td data 32 =
        RustResult.err (MTError.invalidMerkleTreeArgs data.length 32 g.nodes)) ∧
    ((g.merkle_tree td data 32).isOk = true ↔
      data.length = 32 * g.nodes ∧
        (List.range g.nodes).all (fun i => (td (dataAtNode data i 32)).isSome) = true) ∧
    (data.length = 32 * g.nodes →
      (List.range g.nodes).all (fun i => (td (dataAtNode data i 32)).isSome) = false →
      g.merkle_tree td data 32 = RustResult.panicked) := by
  have hd := decodeLeaves_isSome td data 32 (List.range g.nodes)
  refine ⟨fun h => by simp [BucketGraph.merkle_tree, h], ?_, ?_⟩
  · by_cases h : data.length = 32 * g.nodes
    · cases hcase : decodeLeaves td data 32 (List.range g.nodes) with
      | none =>
        rw [hcase] at hd
        simp [BucketGraph.merkle_tree, h, hcase, RustResult.isOk, ← hd]
      | some leaves =>
        rw [hcase] at hd
        simp [BucketGraph.merkle_tree, h, hcase, RustResult.isOk, ← hd]
    · simp [BucketGraph.merkle_tree, h, RustResult.isOk]
  · intro h hall
    cases hcase : decodeLeaves td data 32 (List.range g.nodes) with
    | none => simp [BucketGraph.merkle_tree, h, hcase]
    | some leaves => rw [hcase] at hd; rw [hall] at hd; simp at hd

set_option maxRecDepth 4000 in
/-- C5 witness: a 2-node graph succeeds on a well-formed 64-byte buffer and
returns the exact three-value error on a 5-byte buffer. -/
theorem merkle_tree_size_law_witness :
    ((BucketGraph.mk 2 1 []).merkle_tree sampleDecode (List.replicate 64 7) 32).isOk = true ∧
    (BucketGraph.mk 2 1 []).merkle_tree sampleDecode (List.replicate 5 0) 32 =
      RustResult.err
        (MTError.invalidMerkleTreeArgs (List.replicate 5 0).length 32
          (BucketGraph.mk 2 1 []).nodes) := by
  constructor
  · exact (merkle_tree_size_law (BucketGraph.mk 2 1 []) sampleDecode
      (List.replicate 64 7)).2.1.mpr (by decide)
  · exact (merkle_tree_size_law (BucketGraph.mk 2 1 []) sampleDecode
      (List.replicate 5 0)).1 (by decide)

set_option maxRecDepth 4000 in
/-- C5 counterexample: a buffer of the correct length (32 bytes for one
node) whose node slice is not a valid domain encoding makes `merkle_tree`
panic rather than succeed — refuting "succeeds iff
`data.length = 32 * size()`" as stated. -/
theorem merkle_tree_size_iff_cex :
    cexData.length = 32 * cexGraph.nodes ∧
    (cexGraph.merkle_tree sampleDecode cexData 32).isOk = false := by
  decide

set_option maxRecDepth 4000 in
/-- C6: evaluation at the failing input — a correct-length buffer whose
single node slice fails Domain decoding.  The sequential tree path reaches
the `unwrap` at drgraph.rs line 56 (marked `FIXME: don't unwrap`) and
panics; no recoverable DomainDecodeError is propagated, contradicting the
claim (and the code's own FIXME intent). -/
theorem merkle_tree_unwrap_panics :
    cexGraph.merkle_tree sampleDecode cexData 32 = RustResult.panicked ∧
    sampleDecode (dataAtNode cexData 0 32) = none ∧
    cexData.length = 32 * cexGraph.nodes := by
  decide

/-- C8: `merkle_tree_depth()` is the mathematical ceiling of log2 of
`size()` — for `size ≥ 2` it is the unique `d` with
`2^(d-1) < size ≤ 2^d` (and 0 for `size = 1`); in particular `size = 200`
gives depth 8. -/
theorem merkle_tree_depth_ceil_log2 (g : BucketGraph) :
    (2 ≤ g.nodes →
      2 ^ (g.merkle_tree_depth - 1) < g.nodes ∧ g.nodes ≤ 2 ^ g.merkle_tree_depth) ∧
    (g.nodes = 1 → g.merkle_tree_depth = 0) ∧
    (g.nodes = 200 → g.merkle_tree_depth = 8) := by
  have heq : g.merkle_tree_depth = Nat.clog 2 g.nodes := graph_height_eq_clog g.nodes
  refine ⟨fun h2 => ?_, fun h1 => ?_, fun h200 => ?_⟩
  · rw [heq]
    exact ⟨Nat.pow_pred_clog_lt_self (by norm_num) (by omega),
      Nat.le_pow_clog (by norm_num) _⟩
  · rw [heq, h1]
    exact Nat.clog_one_right 2
  · show graph_height g.nodes = 8
    rw [h200]
    decide

/-- C8 witness: the depth bounds and the value 8 at a 200-node graph. -/
theorem merkle_tree_depth_ceil_log2_witness :
    (2 ^ ((BucketGraph.mk 200 5 []).merkle_tree_depth - 1) < (BucketGraph.mk 200 5 []).nodes ∧
      (BucketGraph.mk 200 5 []).nodes ≤ 2 ^ (BucketGraph.mk 200 5 []).merkle_tree_depth) ∧
    (BucketGraph.mk 200 5 []).merkle_tree_depth = 8 := by
  have h := merkle_tree_depth_ceil_log2 (BucketGraph.mk 200 5 [])
  exact ⟨h.1 (by decide), h.2.2 rfl⟩

/-- C9 (amended): `new_seed()` draws a fresh 7-word (32-bit) seed from the
OS entropy source when it is available; when the source is unavailable the
`unwrap` panics (aborting), rather than returning an error to the caller. -/
theorem new_seed_behavior (f : Nat → Nat) :
    new_seed (some f) = RustResult.ok ((List.range 7).map fun i => f i % 2 ^ 32) ∧
    (∃ ws, new_seed (some f) = RustResult.ok ws ∧ ws.length = 7 ∧ ∀ w ∈ ws, w < 2 ^ 32) ∧
    new_seed none = RustResult.panicked := by
  refine ⟨rfl, ⟨(List.range 7).map fun i => f i % 2 ^ 32, rfl, by simp, ?_⟩, rfl⟩
  intro w hw
  obtain ⟨i, _, rfl⟩ := List.mem_map.mp hw
  exact Nat.mod_lt _ (by norm_num)

/-- C9 counterexample: with the OS entropy source unavailable, `new_seed`
panics and does not return an error value — refuting "it fails by
propagating an error to the caller". -/
theorem new_seed_unavailable_cex :
    new_seed none = RustResult.panicked ∧ (new_seed none).isErr = false :=
  ⟨rfl, rfl⟩

/-- C9 witness: the amended behavior at a concrete available source. -/
theorem new_seed_behavior_witness :
    new_seed (some fun i => i) =
      RustResult.ok ((List.range 7).map fun i => i % 2 ^ 32) ∧
    new_seed none = RustResult.panicked :=
  ⟨(new_seed_behavior fun i => i).1, (new_seed_behavior fun i => i).2.2⟩

theorem decChar_toNat {d : Nat} (h : d < 10) : (decChar d).toNat = 48 + d := by
  interval_cases d <;> decide

theorem decDigitsAux_digit :
    ∀ fuel n, n ≤ fuel → ∀ c ∈ decDigitsAux fuel n, ∃ d, d < 10 ∧ c = decChar d := by
  intro fuel
  induction fuel with
  | zero =>
    intro n hn c hc
    interval_cases n
    exact ⟨0, by omega, by simpa [decDigitsAux] using hc⟩
  | succ fuel ih =>
    intro n hn c hc
    by_cases h10 : n < 10
    · exact ⟨n, h10, by simpa [decDigitsAux, h10] using hc⟩
    · rw [show decDigitsAux (fuel + 1) n =
          decDigitsAux fuel (n / 10) ++ [decChar (n % 10)] by simp [decDigitsAux, h10],
        List.mem_append] at hc
      rcases hc with hc | hc
      · exact ih (n / 10) (by omega) c hc
      · exact ⟨n % 10, by omega, by simpa using hc⟩

theorem decDigits_toNat_le {n : Nat} {c : Char} (hc : c ∈ decDigits n) :
    48 ≤ c.toNat ∧ c.toNat ≤ 57 := by
  obtain ⟨d, hd, rfl⟩ := decDigitsAux_digit n n le_rfl c hc
  rw [decChar_toNat hd]
  omega

theorem semicolon_not_mem_decDigits {n : Nat} : (';' : Char) ∉ decDigits n := by
  intro h
  have h1 := decDigits_toNat_le h
  have h2 : (';' : Char).toNat = 59 := by decide
  omega

theorem rbrace_not_mem_decDigits {n : Nat} : ('\x7d' : Char) ∉ decDigits n := by
  intro h
  have h1 := decDigits_toNat_le h
  have h2 : ('\x7d' : Char).toNat = 125 := by decide
  omega

theorem decValAux :
    ∀ fuel n, n ≤ fuel → ∀ a,
      (decDigitsAux fuel n).foldl (fun a c => 10 * a + (c.toNat - 48)) a =
        a * 10 ^ (decDigitsAux fuel n).length + n := by
  intro fuel
  induction fuel with
  | zero =>
    intro n hn a
    interval_cases n
    simp [decDigitsAux, decChar_toNat]
    ring
  | succ fuel ih =>
    intro n hn a
    by_cases h10 : n < 10
    · simp [decDigitsAux, h10, decChar_toNat h10]
      omega
    · rw [show decDigitsAux (fuel + 1) n =
          decDigitsAux fuel (n / 10) ++ [decChar (n % 10)] by simp [decDigitsAux, h10]]
      rw [List.foldl_append, ih (n / 10) (by omega) a, List.length_append]
      have hmod : (decChar (n % 10)).toNat = 48 + n % 10 := decChar_toNat (by omega)
      simp [hmod, Nat.pow_succ]
      have h1 : 10 * (n / 10) + n % 10 = n := Nat.div_add_mod n 10
      ring_nf
      omega

theorem decVal_decDigits (n : Nat) : decVal (decDigits n) = n := by
  have h := decValAux n n le_rfl 0
  simpa [decVal, decDigits] using h

theorem decDigits_inj {n1 n2 : Nat} (h : decDigits n1 = decDigits n2) : n1 = n2 := by
  have := congrArg decVal h
  rwa [decVal_decDigits, decVal_decDigits] at this

theorem append_marker_inj {c : Char} :
    ∀ (xs1 xs2 ys1 ys2 : List Char), c ∉ xs1 → c ∉ xs2 →
      xs1 ++ c :: ys1 = xs2 ++ c :: ys2 → xs1 = xs2 ∧ ys1 = ys2 := by
  intro xs1
  induction xs1 with
  | nil =>
    intro xs2 ys1 ys2 h1 h2 h
    cases xs2 with
    | nil => simpa using h
    | cons x xs2' =>
      rw [List.nil_append, List.cons_append, List.cons_eq_cons] at h
      exact absurd (h.1 ▸ List.mem_cons_self x xs2') h2
  | cons x1 xs1' ih =>
    intro xs2 ys1 ys2 h1 h2 h
    cases xs2 with
    | nil =>
      rw [List.nil_append, List.cons_append, List.cons_eq_cons] at h
      exact absurd (h.1 ▸ List.mem_cons_self x1 xs1') h1
    | cons x2 xs2' =>
      rw [List.cons_append, List.cons_append, List.cons_eq_cons] at h
      obtain ⟨rfl, htl⟩ := h
      obtain ⟨he, hy⟩ := ih xs2' ys1 ys2 (fun hm => h1 (List.mem_cons_of_mem _ hm))
        (fun hm => h2 (List.mem_cons_of_mem _ hm)) htl
      exact ⟨by rw [he], hy⟩

theorem parameter_set_identifier_data (g : BucketGraph) :
    g.parameter_set_identifier.data =
      "drgraph::BucketGraph\x7bsize: ".data ++
        (decDigits g.nodes ++
          (';' :: (" degree: ".data ++ (decDigits g.base_degree ++ ['\x7d'])))) := by
  have hsemi : "; degree: ".data = ';' :: " degree: ".data := by decide
  have hbrace : "\x7d".data = ['\x7d'] := by decide
  simp [BucketGraph.parameter_set_identifier, natDec, hsemi, hbrace]

theorem identifier_inj {g1 g2 : BucketGraph}
    (h : g1.parameter_set_identifier = g2.parameter_set_identifier) :
    g1.nodes = g2.nodes ∧ g1.base_degree = g2.base_degree := by
  have hd := congrArg String.data h
  rw [parameter_set_identifier_data, parameter_set_identifier_data,
    List.append_right_inj] at hd
  obtain ⟨hn, htail⟩ := append_marker_inj _ _ _ _
    semicolon_not_mem_decDigits semicolon_not_mem_decDigits hd
  rw [List.append_right_inj] at htail
  obtain ⟨hdeg, -⟩ := append_marker_inj _ _ _ _
    rbrace_not_mem_decDigits rbrace_not_mem_decDigits htail
  exact ⟨decDigits_inj hn, decDigits_inj hdeg⟩

/-- C7: `parameter_set_identifier()` is exactly the string
`drgraph::BucketGraph` followed by `(size: <nodes>; degree: <base_degree>)`
in braces, with both numbers in decimal; it does not depend on the seed (two
graphs with equal nodes and base_degree but different seeds yield identical
strings), and two graphs differing in nodes or base_degree yield different
strings (the identifier determines both fields). -/
theorem parameter_set_identifier_spec (g1 g2 : BucketGraph) :
    g1.parameter_set_identifier =
      "drgraph::BucketGraph\x7bsize: " ++ natDec g1.nodes ++ "; degree: " ++
        natDec g1.base_degree ++ "\x7d" ∧
    (BucketGraph.mk 200 5 []).parameter_set_identifier =
      "drgraph::BucketGraph\x7bsize: 200; degree: 5\x7d" ∧
    (g1.nodes = g2.nodes → g1.base_degree = g2.base_degree →
      g1.parameter_set_identifier = g2.parameter_set_identifier) ∧
    (g1.parameter_set_identifier = g2.parameter_set_identifier →
      g1.nodes = g2.nodes ∧ g1.base_degree = g2.base_degree) := by
  refine ⟨rfl, by decide, fun hn hd => ?_, identifier_inj⟩
  obtain ⟨n1, d1, s1⟩ := g1
  obtain ⟨n2, d2, s2⟩ := g2
  simp only at hn hd
  subst hn; subst hd
  rfl

/-- C7 witness: two graphs sharing shape but not seed produce the same
identifier string. -/
theorem parameter_set_identifier_spec_witness :
    (BucketGraph.mk 200 5 [1, 2, 3, 4, 5, 6, 7]).parameter_set_identifier =
      (BucketGraph.mk 200 5 [9, 8, 7, 6, 5, 4, 3]).parameter_set_identifier :=
  (parameter_set_identifier_spec (BucketGraph.mk 200 5 [1, 2, 3, 4, 5, 6, 7])
    (BucketGraph.mk 200 5 [9, 8, 7, 6, 5, 4, 3])).2.2.1 rfl rfl
